import Mathlib

/-!
Shallow embedding of the Sigma sync pipeline
(`src/modules/watcher.py`, `src/modules/drive_handler.py`,
`src/modules/sftp_handler.py`) and proofs about it.

External effects (network calls, the local filesystem, the SFTP server,
the Drive service) are modelled as explicit oracles passed to each
function; every function additionally returns the list of observable
events (log lines, sleeps, protocol operations) it would emit, so that
ordering and error-handling claims become statements about traces.
-/

/-! ## String helpers mirroring the Python primitives used by the code -/

/-- Index of the last occurrence of `c` in `l`, or `none`
(Python `str.rfind` returning `-1` is modelled as `none`). -/
def lastIdxOf : List Char → Char → Option Nat
  | [], _ => none
  | a :: as, c =>
    match lastIdxOf as c with
    | some i => some (i + 1)
    | none => if a = c then some 0 else none

/-- Python `s.lower()`, character by character. -/
def pyLower (s : String) : String :=
  String.mk (s.data.map Char.toLower)

/-- Python `s.replace(a, b)` for one-character `a` and `b`. -/
def pyReplaceChar (s : String) (a b : Char) : String :=
  String.mk (s.data.map (fun c => if c = a then b else c))

/-- Python `s.strip()`: drop whitespace at both ends. -/
def pyStrip (s : String) : String :=
  String.mk (((s.data.dropWhile Char.isWhitespace).reverse.dropWhile
    Char.isWhitespace).reverse)

/-- `t` is a leading run of `s`, character by character. -/
def startsWithChars : List Char → List Char → Bool
  | _, [] => true
  | [], _ :: _ => false
  | a :: as, b :: bs => a = b && startsWithChars as bs

/-- Python `s.startswith(t)`. -/
def pyStartsWith (s t : String) : Bool :=
  startsWithChars s.data t.data

/-- Python `s.split(sep)` for a one-character separator: empty segments
are kept (`"a//b"` gives `["a", "", "b"]`, `""` gives `[""]`). -/
def splitOnChar (sep : Char) : List Char → List (List Char)
  | [] => [[]]
  | c :: cs =>
    let rest := splitOnChar sep cs
    if c = sep then [] :: rest
    else
      match rest with
      | r :: rs => (c :: r) :: rs
      | [] => [[c]]

/-- Python `s.split(sep)` on strings, for a one-character separator. -/
def pySplitOn (s : String) (sep : Char) : List String :=
  (splitOnChar sep s.data).map String.mk

/-- Python `s.lstrip(".")`: drop every leading dot. -/
def lstripDots (s : String) : String :=
  String.mk (s.data.dropWhile (· = '.'))

/-- Python `s.rstrip("/")`: drop every trailing slash. -/
def rstripSlashes (s : String) : String :=
  String.mk ((s.data.reverse.dropWhile (· = '/')).reverse)

/-- Python `s.strip("/")`: drop leading and trailing slashes. -/
def stripSlashes (s : String) : String :=
  String.mk (((s.data.dropWhile (· = '/')).reverse.dropWhile (· = '/')).reverse)

/-- The extension part `os.path.splitext(p)[1]` of posixpath's `splitext`:
split at the last dot that comes after the last `/`, except that a run of
dots at the very start of the base name never starts an extension. -/
def splitextExt (p : String) : String :=
  let l := p.data
  let sepIdx : Int := match lastIdxOf l '/' with | some i => (i : Int) | none => -1
  let dotIdx : Int := match lastIdxOf l '.' with | some i => (i : Int) | none => -1
  if sepIdx < dotIdx then
    let fnStart := (sepIdx + 1).toNat
    let dI := dotIdx.toNat
    if ((l.drop fnStart).take (dI - fnStart)).any (· ≠ '.') then
      String.mk (l.drop dI)
    else ""
  else ""

/-! ## `Watcher._filter_allowed` (src/modules/watcher.py lines 34-38) -/

/-- `Watcher._filter_allowed`: with an empty allow-list everything passes;
otherwise the lowercased `splitext` extension (leading dots stripped) must
be among the lowercased allowed extensions. -/
def filter_allowed (allowed_extensions : List String) (name : String) : Bool :=
  if allowed_extensions = [] then true
  else
    let ext := pyLower (lstripDots (splitextExt name))
    (allowed_extensions.map pyLower).contains ext

/-- The spec's reading of the extension: the suffix strictly after the last
dot of the whole name (empty when there is no dot). Used only to state
claims about `filter_allowed`, never by the embedded code. -/
def suffixAfterLastDot (name : String) : String :=
  match lastIdxOf name.data '.' with
  | some i => String.mk (name.data.drop (i + 1))
  | none => ""

/-! ## `SFTPHandler` path resolution (src/modules/sftp_handler.py lines 66-81) -/

/-- `SFTPHandler._aws_intended_dir`. -/
def aws_intended_dir (username : String) : String :=
  "/vendor-automation-sftp-storage-live-me-1/home/" ++ username ++ "/catalog"

/-- `SFTPHandler.get_auto_remote_dir`: remap to `<home>/catalog` when a
home directory was resolved (Python truthiness: `None` and `""` both count
as unresolved), else the intended template path. -/
def get_auto_remote_dir (username : String) (home : Option String) : String :=
  let intended := aws_intended_dir username
  match home with
  | some h => if h = "" then intended else rstripSlashes h ++ "/catalog"
  | none => intended

/-! ## `_retry` (src/modules/drive_handler.py lines 53-73) -/

/-- Exceptions raised by the wrapped operations. The Python code has a
dedicated `except HttpError` clause and a generic `except Exception`
clause with identical bodies; the two constructors let the embedding keep
both clauses. -/
inductive PyExc
  | httpError (msg : String)
  | other (msg : String)
deriving DecidableEq, Repr

/-- Observable events of one `_retry` run: warning log lines and
backoff sleeps (in seconds). -/
inductive RetryEv
  | warn (attempt : Nat) (e : PyExc)
  | sleep (seconds : ℚ)
deriving DecidableEq, Repr

/-- Whether a retry event is a logged warning. -/
def RetryEv.isWarn : RetryEv → Bool
  | .warn _ _ => true
  | .sleep _ => false

/-- The `for attempt in range(1, retries + 1)` loop of `_retry`, entered at
`attempt`, with structural fuel (the loop performs at most
`retries - attempt + 1` further iterations, so any fuel at least that
large gives the loop's behaviour). The operation oracle receives the
attempt number so that per-attempt outcomes can be described.
`.error none` is the degenerate `raise last_exc` after an empty loop
(only reachable with `retries = 0`). The two exception branches
transcribe the code's two identical except clauses. -/
def retryFrom (op : Nat → Except PyExc α) (retries : Nat) (base_sleep : ℚ) :
    Nat → Nat → Except (Option PyExc) α × List RetryEv
  | 0, _ => (.error none, [])
  | fuel + 1, attempt =>
    if retries < attempt then (.error none, [])
    else
      match op attempt with
      | .ok a => (.ok a, [])
      | .error e =>
        match e with
        | .httpError m =>
          if attempt = retries then
            (.error (some (.httpError m)), [.warn attempt (.httpError m)])
          else
            let rest := retryFrom op retries base_sleep fuel (attempt + 1)
            (rest.1, .warn attempt (.httpError m) ::
              .sleep (base_sleep * 2 ^ (attempt - 1)) :: rest.2)
        | .other m =>
          if attempt = retries then
            (.error (some (.other m)), [.warn attempt (.other m)])
          else
            let rest := retryFrom op retries base_sleep fuel (attempt + 1)
            (rest.1, .warn attempt (.other m) ::
              .sleep (base_sleep * 2 ^ (attempt - 1)) :: rest.2)

/-- `_retry(func, retries, base_sleep)`: run the loop from attempt 1
(fuel `retries` covers all its iterations). -/
def _retry (op : Nat → Except PyExc α) (retries : Nat) (base_sleep : ℚ) :
    Except (Option PyExc) α × List RetryEv :=
  retryFrom op retries base_sleep retries 1

/-! ## `list_files_in_folder` (src/modules/drive_handler.py lines 107-139) -/

/-- One file's metadata as returned by a listing page. -/
structure FileRec where
  id : String
  name : String
deriving DecidableEq, Repr

/-- One page of a listing response. -/
structure ListPage where
  files : List FileRec
  nextPageToken : Option String
deriving DecidableEq, Repr

/-- Python truthiness of `resp.get("nextPageToken")`: the loop continues
only for a present, non-empty token (`if not page_token: break`). -/
def tokenTruthy : Option String → Bool
  | none => false
  | some s => s != ""

/-- The pagination loop of `list_files_in_folder`: each page request is the
`_retry`-wrapped call with the current token (the code calls
`_retry(_call)` with its defaults `retries=3, base_sleep=1.0`); pages are
accumulated with `files.extend(items)`. `fuel` bounds the number of pages
followed; the real loop runs until the token chain ends. -/
def listLoop (fetch : Option String → Nat → Except PyExc ListPage) :
    Nat → Option String → List FileRec → Except (Option PyExc) (List FileRec)
  | 0, _, _ => .error none
  | fuel + 1, tok, acc =>
    match (_retry (fetch tok) 3 1).1 with
    | .error e => .error e
    | .ok page =>
      let acc' := acc ++ page.files
      if tokenTruthy page.nextPageToken then
        listLoop fetch fuel page.nextPageToken acc'
      else .ok acc'

/-- `list_files_in_folder`: start with no page token and an empty
accumulator. -/
def list_files_in_folder (fetch : Option String → Nat → Except PyExc ListPage)
    (fuel : Nat) : Except (Option PyExc) (List FileRec) :=
  listLoop fetch fuel none []

/-- The service answers `fetch` as a chain of pages: each (retried) request
for the current token succeeds with the next page, whose token continues
the chain; the last page's token is falsy. Used as a hypothesis describing
a multi-page listing. -/
def Paginates (fetchR : Option String → Except (Option PyExc) ListPage) :
    Option String → List ListPage → Prop
  | _, [] => False
  | tok, [p] => fetchR tok = .ok p ∧ tokenTruthy p.nextPageToken = false
  | tok, p :: q :: ps => fetchR tok = .ok p ∧ tokenTruthy p.nextPageToken = true ∧
      Paginates fetchR p.nextPageToken (q :: ps)

/-! ## `move_file_to_archive` (src/modules/drive_handler.py lines 194-257) -/

/-- The Drive state relevant to archiving one file: the id of the root
folder carrying the archive name (if one exists, as found by
`_find_folder_in_root`) and the file's current parent list. -/
structure ArchiveSt where
  archiveFolderId : Option String
  parents : List String
deriving DecidableEq, Repr

/-- `get_or_create_archive_folder`: return the existing folder's id, else
create the folder (`freshId` is the id the service assigns to it). -/
def get_or_create_archive_folder (freshId : String) (st : ArchiveSt) :
    String × ArchiveSt :=
  match st.archiveFolderId with
  | some fid => (fid, st)
  | none => (freshId, { st with archiveFolderId := some freshId })

/-- The Drive `files().update(addParents=…, removeParents=…)` parent
mutation: every previously-listed parent in `removed` is dropped and
`added` is appended. -/
def updateParents (old : List String) (added : String) (removed : List String) :
    List String :=
  old.filter (fun p => !(removed.contains p)) ++ [added]

/-- `move_file_to_archive` with each retried service call succeeding (any
exception would be caught by the surrounding `try` and reported as
`False`): resolve the archive folder, read the parents, short-circuit to
`True` if the archive folder is already a parent, else replace all current
parents by the archive folder (the code passes `removeParents` only when
the parent list is nonempty, which coincides with removing every current
parent). Returns the boolean result and the new Drive state. -/
def move_file_to_archive (freshId : String) (st : ArchiveSt) : Bool × ArchiveSt :=
  let res := get_or_create_archive_folder freshId st
  let archive_id := res.1
  let st1 := res.2
  if st1.parents.contains archive_id then
    (true, st1)
  else
    (true, { st1 with parents := updateParents st1.parents archive_id st1.parents })

/-! ## Events of one watcher cycle -/

/-- Observable events of `download_all_from_folder` and `Watcher.run_once`:
log lines and external operations, in program order. -/
inductive Ev
  | downloadTry (id name : String)
  | downloadOk (id name : String)
  | downloadErr (id name msg : String)
  | deleteDrive (id : String)
  | warnSkipErrored (name msg : String)
  | infoSkipExt (name : String)
  | warnSkipSize (name : String)
  | warnStatSize (path msg : String)
  | warnEmptyFolderId
  | infoNoNewFiles
  | sftpConnect
  | sftpClose
  | uploadOk (path : String)
  | uploadErr (name msg : String)
  | archiveOk (id : String)
  | archiveErr (id : String)
  | removeOk (path : String)
  | removeErr (path msg : String)
deriving DecidableEq, Repr

/-! ## `download_all_from_folder` (src/modules/drive_handler.py lines 271-303) -/

/-- One entry of the result list of `download_all_from_folder`
(`{id,name,path,status,message}`). -/
structure FileResult where
  id : String
  name : String
  path : String
  status : String
  message : String
deriving DecidableEq, Repr

/-- `download_all_from_folder`: download every listed file into `dest_dir`
(names with `/` replaced by `_`), appending an `OK` or `ERROR` entry per
attempted file; `allowedNamePreOpt` models the `allowed_name_prefix`
argument (files not starting with a truthy prefix are skipped with no
entry), `delete_after_download` the legacy delete flag. The watcher calls
this with `delete_after_download=False` and no prefix. The `download`
oracle gives the (already `_retry`-wrapped) outcome of
`download_file_to_path` per file id. -/
def download_all_from_folder (files : List FileRec) (dest_dir : String)
    (download : String → Except String Unit)
    (delete_after_download : Bool) (allowedNamePreOpt : Option String) :
    List FileResult × List Ev :=
  match files with
  | [] => ([], [])
  | f :: rest =>
    let tail := download_all_from_folder rest dest_dir download
      delete_after_download allowedNamePreOpt
    let skip : Bool := match allowedNamePreOpt with
      | none => false
      | some s => s != "" && !(pyStartsWith f.name s)
    if skip then tail
    else
      let safe_name := pyReplaceChar f.name '/' '_'
      let dest_path := dest_dir ++ "/" ++ safe_name
      match download f.id with
      | .ok _ =>
        let delEvs := if delete_after_download then [Ev.deleteDrive f.id] else []
        (⟨f.id, f.name, dest_path, "OK", ""⟩ :: tail.1,
          Ev.downloadTry f.id f.name :: Ev.downloadOk f.id f.name :: delEvs ++ tail.2)
      | .error e =>
        (⟨f.id, f.name, dest_path, "ERROR", e⟩ :: tail.1,
          Ev.downloadTry f.id f.name :: Ev.downloadErr f.id f.name e :: tail.2)

/-! ## `Watcher.run_once` (src/modules/watcher.py lines 40-109) -/

/-- The settings fields `run_once` reads for filtering. -/
structure WSettings where
  ALLOWED_EXTENSIONS : List String
  MAX_FILE_SIZE_MB : Nat
deriving Repr

/-- Oracles for the external world one cycle interacts with. -/
structure WatchWorld where
  listing : List FileRec
  download : String → Except String Unit
  getsize : String → Except String Nat
  connect : Except String Unit
  upload : String → Except String Unit
  archiveMove : String → Bool
  existsLocal : String → Bool
  removeLocal : String → Except String Unit

/-- The body of the eligibility loop of `run_once` for one downloaded
entry: skip non-`OK` entries, then the extension filter, then (only when a
maximum size is configured) the size check. `getsize` returns the local
file's size in bytes; the Python comparison
`size/(1024*1024) > MAX_FILE_SIZE_MB` is exact for sizes below 2^53 since
the denominator is a power of two, so it is embedded as
`size > MAX * 1048576`. A `getsize` exception is logged and the entry is
kept. -/
def filterStep (s : WSettings) (w : WatchWorld) (f : FileResult) :
    Option FileResult × List Ev :=
  if f.status ≠ "OK" then (none, [.warnSkipErrored f.name f.message])
  else if !(filter_allowed s.ALLOWED_EXTENSIONS f.name) then
    (none, [.infoSkipExt f.name])
  else if s.MAX_FILE_SIZE_MB ≠ 0 then
    match w.getsize f.path with
    | .ok sizeBytes =>
      if sizeBytes > s.MAX_FILE_SIZE_MB * 1048576 then (none, [.warnSkipSize f.name])
      else (some f, [])
    | .error e => (some f, [.warnStatSize f.path e])
  else (some f, [])

/-- The whole eligibility loop: `files_ok` in order, plus the emitted
events. -/
def filterFiles (s : WSettings) (w : WatchWorld) :
    List FileResult → List FileResult × List Ev
  | [] => ([], [])
  | f :: rest =>
    let step := filterStep s w f
    let tail := filterFiles s w rest
    ((match step.1 with | some fr => fr :: tail.1 | none => tail.1),
      step.2 ++ tail.2)

/-- The per-file `try` body of the upload loop: upload, then archive, then
best-effort local cleanup. Any exception of the upload is caught at this
file boundary (`except` → `logger.exception`); `move_file_to_archive`
itself never raises (it catches internally and returns a boolean); the
local remove has its own inner `try`. -/
def processFile (w : WatchWorld) (f : FileResult) : List Ev :=
  match w.upload f.path with
  | .error e => [.uploadErr f.name e]
  | .ok _ =>
    let archEvs := if w.archiveMove f.id then [Ev.archiveOk f.id] else [Ev.archiveErr f.id]
    let rmEvs :=
      if w.existsLocal f.path then
        match w.removeLocal f.path with
        | .ok _ => [Ev.removeOk f.path]
        | .error e => [Ev.removeErr f.path e]
      else []
    Ev.uploadOk f.path :: archEvs ++ rmEvs

/-- The sink phase of `run_once`: `sftp.connect()` happens before the
`try`/`finally`, so a connect failure propagates with no close; otherwise
every eligible file is processed inside the `try` and `sftp.close()` runs
in the `finally`. -/
def uploadPhase (w : WatchWorld) (files_ok : List FileResult) :
    Except String (List Ev) :=
  match w.connect with
  | .error e => .error e
  | .ok _ => .ok (Ev.sftpConnect :: (files_ok.map (processFile w)).flatten ++ [Ev.sftpClose])

/-- `Watcher.run_once`: empty folder id → warn and return; download all
listed files; filter; nothing eligible → return; else run the sink phase.
The result is the event trace, or the exception the cycle re-raises. -/
def run_once (s : WSettings) (w : WatchWorld) (drive_folder_id : String)
    (temp_dir : String) : Except String (List Ev) :=
  let folder_id := pyStrip drive_folder_id
  if folder_id = "" then .ok [.warnEmptyFolderId]
  else
    let dl := download_all_from_folder w.listing temp_dir w.download false none
    let flt := filterFiles s w dl.1
    if flt.1 = [] then .ok (dl.2 ++ flt.2 ++ [.infoNoNewFiles])
    else
      match uploadPhase w flt.1 with
      | .error e => .error e
      | .ok upEvs => .ok (dl.2 ++ flt.2 ++ upEvs)

/-! ## `SFTPHandler.makedirs` (src/modules/sftp_handler.py lines 84-102) -/

/-- Failure of a remote `mkdir`. The code re-raises exactly the
`IOError`-with-`errno.EACCES` case; an "already exists" failure and every
other failure take the warning path. -/
inductive MkErr
  | eacces (msg : String)
  | eexist (msg : String)
  | other (msg : String)
deriving DecidableEq, Repr

/-- Events of `makedirs`: a successful `mkdir` log line or the
`mkdir failed` warning for one accumulated path. -/
inductive MkEv
  | mkdirOk (path : String)
  | warnMkdirFailed (path : String)
deriving DecidableEq, Repr

/-- The accumulated path for the next segment, as built by the loop
(`path = f"{path}/{p}" if path else (f"/{p}" if absolute else p)`). -/
def nextPath (absolute : Bool) (path p : String) : String :=
  if path ≠ "" then path ++ "/" ++ p else (if absolute then "/" ++ p else p)

/-- The segment loop of `makedirs`: for each accumulated prefix, `stat` it;
on stat failure try `mkdir`; re-raise a permission-denied creation failure
immediately, warn and continue on any other creation failure. -/
def mkdirsGo (stat : String → Bool) (mkdir : String → Except MkErr Unit)
    (absolute : Bool) : String → List String → Except MkErr (List MkEv)
  | _, [] => .ok []
  | path, p :: rest =>
    let path' := nextPath absolute path p
    if stat path' then mkdirsGo stat mkdir absolute path' rest
    else
      match mkdir path' with
      | .ok _ =>
        match mkdirsGo stat mkdir absolute path' rest with
        | .ok evs => .ok (MkEv.mkdirOk path' :: evs)
        | .error e => .error e
      | .error (.eacces m) => .error (.eacces m)
      | .error _ =>
        match mkdirsGo stat mkdir absolute path' rest with
        | .ok evs => .ok (MkEv.warnMkdirFailed path' :: evs)
        | .error e2 => .error e2

/-- `SFTPHandler.makedirs`: degenerate paths are a no-op; otherwise split
on `/`, keep non-empty segments, and walk them accumulating the prefix. -/
def makedirs (stat : String → Bool) (mkdir : String → Except MkErr Unit)
    (remote_dir : String) : Except MkErr (List MkEv) :=
  if remote_dir = "" ∨ remote_dir = "/" ∨ remote_dir = "." ∨ remote_dir = "~" then .ok []
  else
    let parts := (pySplitOn (stripSlashes remote_dir) '/').filter (· ≠ "")
    mkdirsGo stat mkdir (pyStartsWith remote_dir "/") "" parts

/-- The prefixes `makedirs` visits, left to right, starting from
accumulator `path`. Used to state claims about `makedirs`. -/
def accPaths (absolute : Bool) : String → List String → List String
  | _, [] => []
  | path, p :: rest =>
    let path' := nextPath absolute path p
    path' :: accPaths absolute path' rest

/-! ## `Watcher.start_loop` (src/modules/watcher.py lines 111-126) -/

/-- Events of the polling loop: a stop-flag poll (with the observed
value), a finished cycle (exception caught and logged or not), one second
of sleep. -/
inductive LoopEv
  | poll (observed : Bool)
  | cycleOk (i : Nat)
  | cycleErr (i : Nat) (msg : String)
  | sleepOneSec
deriving DecidableEq, Repr

/-- The inter-cycle sleep `for _ in range(interval)`: each second first
polls the stop flag (break when set), then sleeps one second. `k` counts
flag polls so far; returns the events and the updated poll count. -/
def sleepPhase (flag : Nat → Bool) : Nat → Nat → List LoopEv × Nat
  | k, 0 => ([], k)
  | k, r + 1 =>
    if flag k then ([.poll true], k + 1)
    else
      let rest := sleepPhase flag (k + 1) r
      (.poll false :: .sleepOneSec :: rest.1, rest.2)

/-- `Watcher.start_loop`: poll the stop flag immediately before each
cycle; run the cycle with every escaping exception caught and logged;
sleep between cycles in one-second increments, polling the flag before
each second. `flag` maps the poll count to the observed stop-flag value,
`cycle i` is the outcome of the `i`-th `run_once`, `fuel` bounds the
number of outer `while` iterations (the real loop is unbounded); the
boolean is `true` when the loop exited through the stop flag. -/
def start_loop (flag : Nat → Bool) (cycle : Nat → Except String Unit)
    (interval : Nat) : Nat → Nat → Nat → List LoopEv × Bool
  | 0, _, _ => ([], false)
  | fuel + 1, k, i =>
    if flag k then ([.poll true], true)
    else
      let cev := match cycle i with
        | .ok _ => LoopEv.cycleOk i
        | .error e => LoopEv.cycleErr i e
      let slp := sleepPhase flag (k + 1) interval
      let rest := start_loop flag cycle interval fuel slp.2 (i + 1)
      (.poll false :: cev :: slp.1 ++ rest.1, rest.2)

/-! ## Theorems -/

/-- Helper: if `c` does not occur in `l`, `lastIdxOf` finds nothing. -/
theorem lastIdxOf_eq_none {l : List Char} {c : Char} (h : c ∉ l) :
    lastIdxOf l c = none := by
  induction l with
  | nil => rfl
  | cons a as ih =>
    simp only [List.mem_cons, not_or] at h
    simp only [lastIdxOf, ih h.2]
    exact if_neg (fun hac => h.1 hac.symm)

/-- Helper: a name without a dot has an empty `splitext` extension. -/
theorem splitextExt_of_no_dot {p : String} (h : '.' ∉ p.data) :
    splitextExt p = "" := by
  simp only [splitextExt, lastIdxOf_eq_none h]
  cases hs : lastIdxOf p.data '/' with
  | none => simp
  | some i =>
    simp only []
    rw [if_neg]
    omega

/-- C6: for username `bob`, with the home resolved as `/home/bob` the
destination directory is `/home/bob/catalog`; with no resolved home it is
the fixed template path verbatim; and in general a (nonempty) resolved
home gives the home with trailing slashes stripped plus `/catalog`. -/
theorem get_auto_remote_dir_spec :
    get_auto_remote_dir "bob" (some "/home/bob") = "/home/bob/catalog" ∧
    get_auto_remote_dir "bob" none =
      "/vendor-automation-sftp-storage-live-me-1/home/bob/catalog" ∧
    ∀ u h : String, h ≠ "" →
      get_auto_remote_dir u (some h) = rstripSlashes h ++ "/catalog" := by
  refine ⟨by rfl, by rfl, ?_⟩
  intro u h hne
  simp [get_auto_remote_dir, hne]

/-- C6 witness: instantiate the general part at `u = "alice"`,
`h = "/srv/data//"`. -/
theorem get_auto_remote_dir_spec_witness :
    get_auto_remote_dir "alice" (some "/srv/data//") = "/srv/data/catalog" := by
  have h := get_auto_remote_dir_spec.2.2 "alice" "/srv/data//" (by decide)
  rw [h]
  rfl

/-- C10 counterexample: for the file name `".csv"` under allow-list
`["csv"]`, the claimed rule (compare the lowercased suffix after the last
dot with the lowercased allow-list) accepts the file, but the code
excludes it: Python's `splitext` gives `".csv"` no extension. -/
theorem filter_allowed_counterexample :
    filter_allowed ["csv"] ".csv" = false ∧
    (["csv"].map pyLower).contains (pyLower (suffixAfterLastDot ".csv")) = true := by
  constructor <;> rfl

/-- C10 (amended): with a non-empty allow-list, eligibility compares the
lowercased `splitext` extension (suffix after the last dot, except that a
leading run of dots in the base name is not an extension separator, and
with leading dots stripped) against the lowercased allow-list; a name
containing no dot yields an empty extension and is excluded whenever the
empty string is not among the lowercased allowed extensions. -/
theorem filter_allowed_splitext (allowed : List String) (name : String)
    (hne : allowed ≠ []) :
    filter_allowed allowed name =
      (allowed.map pyLower).contains (pyLower (lstripDots (splitextExt name))) ∧
    ('.' ∉ name.data → (allowed.map pyLower).contains "" = false →
      filter_allowed allowed name = false) := by
  constructor
  · simp [filter_allowed, hne]
  · intro hdot hemp
    rw [filter_allowed, if_neg hne, splitextExt_of_no_dot hdot]
    simpa [lstripDots, pyLower] using hemp

/-- C10 witness: the amended rule at allow-list `["csv"]` for the dotless
name `"nodots"` (excluded) and the claim-matching name `"DATA.CSV"`. -/
theorem filter_allowed_splitext_witness :
    filter_allowed ["csv"] "nodots" = false ∧
    filter_allowed ["csv"] "DATA.CSV" =
      (["csv"].map pyLower).contains (pyLower (lstripDots (splitextExt "DATA.CSV"))) := by
  constructor
  · exact (filter_allowed_splitext ["csv"] "nodots" (by decide)).2
      (by decide) (by decide)
  · exact (filter_allowed_splitext ["csv"] "DATA.CSV" (by decide)).1

/-- C4: with `retries = 3`, an operation failing on attempts 1 and 2 and
succeeding on attempt 3 makes `_retry` return that success after exactly
two logged warnings, sleeping `base_sleep * 2^(attempt-1)` seconds before
each retry; an operation failing on all three attempts makes it re-raise
the last failure. The exceptions are arbitrary (either constructor), so
every exception type takes the same retry/backoff path. -/
theorem retry_spec {α : Type} (op op2 : Nat → Except PyExc α) (base : ℚ)
    (e1 e2 f1 f2 f3 : PyExc) (v : α)
    (h1 : op 1 = .error e1) (h2 : op 2 = .error e2) (h3 : op 3 = .ok v)
    (g1 : op2 1 = .error f1) (g2 : op2 2 = .error f2) (g3 : op2 3 = .error f3) :
    _retry op 3 base =
      (.ok v, [.warn 1 e1, .sleep base, .warn 2 e2, .sleep (base * 2)]) ∧
    ((_retry op 3 base).2.filter RetryEv.isWarn).length = 2 ∧
    _retry op2 3 base =
      (.error (some f3),
        [.warn 1 f1, .sleep base, .warn 2 f2, .sleep (base * 2), .warn 3 f3]) := by
  have ha : _retry op 3 base =
      (.ok v, [.warn 1 e1, .sleep base, .warn 2 e2, .sleep (base * 2)]) := by
    cases e1 <;> cases e2 <;> simp [_retry, retryFrom, h1, h2, h3]
  refine ⟨ha, ?_, ?_⟩
  · rw [ha]
    rfl
  · cases f1 <;> cases f2 <;> cases f3 <;>
      simp [_retry, retryFrom, g1, g2, g3]

/-- C4 witness: a concrete operation succeeding on its third attempt and a
concrete operation failing on all three, with `base_sleep = 1`. -/
theorem retry_spec_witness :
    _retry (fun n => if n = 3 then Except.ok (0 : Nat) else .error (.other "boom")) 3 1 =
      (.ok 0, [.warn 1 (.other "boom"), .sleep 1,
        .warn 2 (.other "boom"), .sleep (1 * 2)]) ∧
    ((_retry (fun n => if n = 3 then Except.ok (0 : Nat) else .error (.other "boom"))
        3 1).2.filter RetryEv.isWarn).length = 2 ∧
    _retry (fun _ => (.error (.httpError "down") : Except PyExc Nat)) 3 1 =
      (.error (some (.httpError "down")),
        [.warn 1 (.httpError "down"), .sleep 1, .warn 2 (.httpError "down"),
          .sleep (1 * 2), .warn 3 (.httpError "down")]) :=
  retry_spec _ _ 1 _ _ _ _ _ 0 rfl rfl rfl rfl rfl rfl

/-- Helper: removing every current parent and adding `a` leaves exactly
`[a]`. -/
theorem updateParents_self (l : List String) (a : String) :
    updateParents l a l = [a] := by
  unfold updateParents
  have hf : l.filter (fun p => !(l.contains p)) = [] := by
    simp only [List.filter_eq_nil_iff]
    intro p hp
    simp [hp]
  simp [hf]

/-- C3 counterexample: a file that already lists the archive folder
together with a second parent. The first `move_file_to_archive` call
short-circuits to success, so after it the archive folder is *not* the
file's only parent, contrary to the claim's universal "after the first
successful call the archive folder is the file's only parent". -/
theorem move_file_to_archive_counterexample :
    (move_file_to_archive "fresh" ⟨some "arch", ["arch", "other"]⟩).1 = true ∧
    (move_file_to_archive "fresh" ⟨some "arch", ["arch", "other"]⟩).2.parents ≠
      ["arch"] := by
  constructor
  · rfl
  · decide

/-- C3 (amended): both calls return success; when the archive folder was
not already among the file's parents, the first call leaves it as the only
parent; when it already was a parent (possibly alongside others), the
first call short-circuits and performs no parent mutation at all; in every
case the archive folder is among the parents after the first call and the
second call short-circuits to success with no mutation at all. -/
theorem move_file_to_archive_idem (st : ArchiveSt) (freshId : String) :
    (move_file_to_archive freshId st).1 = true ∧
    (move_file_to_archive freshId (move_file_to_archive freshId st).2).1 = true ∧
    ((get_or_create_archive_folder freshId st).1 ∉ st.parents →
      (move_file_to_archive freshId st).2.parents =
        [(get_or_create_archive_folder freshId st).1]) ∧
    ((get_or_create_archive_folder freshId st).1 ∈ st.parents →
      (move_file_to_archive freshId st).2.parents = st.parents) ∧
    (get_or_create_archive_folder freshId st).1 ∈
      (move_file_to_archive freshId st).2.parents ∧
    move_file_to_archive freshId (move_file_to_archive freshId st).2 =
      (true, (move_file_to_archive freshId st).2) := by
  obtain ⟨afid, parents⟩ := st
  cases afid with
  | some fid =>
    by_cases hc : fid ∈ parents
    · simp [move_file_to_archive, get_or_create_archive_folder, hc]
    · simp [move_file_to_archive, get_or_create_archive_folder, hc, updateParents_self]
  | none =>
    by_cases hc : freshId ∈ parents
    · simp [move_file_to_archive, get_or_create_archive_folder, hc]
    · simp [move_file_to_archive, get_or_create_archive_folder, hc, updateParents_self]

/-- C3 witness: a file whose single parent is the source folder: the
archive folder (freshly created as `"arch"`) becomes the only parent and
the second call is a no-op success; and a file already listing the archive
folder next to another parent: the first call mutates nothing. -/
theorem move_file_to_archive_idem_witness :
    (move_file_to_archive "arch" ⟨none, ["src"]⟩).2.parents = ["arch"] ∧
    move_file_to_archive "arch" (move_file_to_archive "arch" ⟨none, ["src"]⟩).2 =
      (true, (move_file_to_archive "arch" ⟨none, ["src"]⟩).2) ∧
    (move_file_to_archive "fresh" ⟨some "arch", ["arch", "other"]⟩).2.parents =
      ["arch", "other"] := by
  have h := move_file_to_archive_idem ⟨none, ["src"]⟩ "arch"
  have h2 := move_file_to_archive_idem ⟨some "arch", ["arch", "other"]⟩ "fresh"
  exact ⟨h.2.2.1 (by decide), h.2.2.2.2.2, h2.2.2.2.1 (by decide)⟩

/-- C9: when a maximum file size is configured and reading the local
file's size raises, the exception is only logged and the file stays
eligible (the size limit is never checked for it), and every eligible file
gets an upload attempt in the sink phase. -/
theorem getsize_failure_keeps_file (s : WSettings) (w : WatchWorld) (f : FileResult)
    (e : String)
    (hmax : s.MAX_FILE_SIZE_MB ≠ 0) (hst : f.status = "OK")
    (hext : filter_allowed s.ALLOWED_EXTENSIONS f.name = true)
    (hsz : w.getsize f.path = .error e) :
    filterStep s w f = (some f, [.warnStatSize f.path e]) ∧
    ∀ files_ok : List FileResult, f ∈ files_ok → w.connect = .ok () →
      ∃ evs, uploadPhase w files_ok = .ok evs ∧
        (Ev.uploadOk f.path ∈ evs ∨ ∃ m, Ev.uploadErr f.name m ∈ evs) := by
  constructor
  · simp [filterStep, hst, hext, hmax, hsz]
  · intro fs hf hc
    refine ⟨Ev.sftpConnect :: (fs.map (processFile w)).flatten ++ [Ev.sftpClose],
      by simp [uploadPhase, hc], ?_⟩
    cases hu : w.upload f.path with
    | ok u =>
      left
      have hmem : Ev.uploadOk f.path ∈ processFile w f := by
        simp [processFile, hu]
      have hfl : Ev.uploadOk f.path ∈ (fs.map (processFile w)).flatten :=
        List.mem_flatten.mpr ⟨processFile w f, List.mem_map_of_mem _ hf, hmem⟩
      simp [hfl]
    | error m =>
      right
      refine ⟨m, ?_⟩
      have hmem : Ev.uploadErr f.name m ∈ processFile w f := by
        simp [processFile, hu]
      have hfl : Ev.uploadErr f.name m ∈ (fs.map (processFile w)).flatten :=
        List.mem_flatten.mpr ⟨processFile w f, List.mem_map_of_mem _ hf, hmem⟩
      simp [hfl]

/-- C9 witness: a 1 MB limit, an `OK` `csv` entry whose local stat raises
`"io error"`; the filter keeps the file with only a warning. -/
theorem getsize_failure_keeps_file_witness :
    filterStep ⟨["csv"], 1⟩
      ⟨[], fun _ => .ok (), fun _ => .error "io error", .ok (), fun _ => .ok (),
        fun _ => true, fun _ => true, fun _ => .ok ()⟩
      ⟨"id1", "a.csv", "tmp/a.csv", "OK", ""⟩ =
      (some ⟨"id1", "a.csv", "tmp/a.csv", "OK", ""⟩,
        [.warnStatSize "tmp/a.csv" "io error"]) :=
  (getsize_failure_keeps_file ⟨["csv"], 1⟩
    ⟨[], fun _ => .ok (), fun _ => .error "io error", .ok (), fun _ => .ok (),
      fun _ => true, fun _ => true, fun _ => .ok ()⟩
    ⟨"id1", "a.csv", "tmp/a.csv", "OK", ""⟩ "io error"
    (by decide) rfl rfl rfl).1

/-- Whether a creation outcome is the `IOError`-with-`EACCES` case the
code re-raises. -/
def isEaccesFailure : Except MkErr Unit → Bool
  | .error (.eacces _) => true
  | _ => false

/-- The events `makedirs` emits over the visited prefixes when no
permission-denied creation failure occurs: nothing for a prefix whose stat
succeeds, the `mkdir` log line on creation, the warning on any other
creation failure. -/
def expectedMkEvs (stat : String → Bool) (mkdir : String → Except MkErr Unit)
    (ps : List String) : List MkEv :=
  ps.filterMap (fun q =>
    if stat q then none
    else
      match mkdir q with
      | .ok _ => some (.mkdirOk q)
      | .error _ => some (.warnMkdirFailed q))

/-- The accumulated prefixes `makedirs remote_dir` walks, left to right. -/
def makedirsPrefixes (remote_dir : String) : List String :=
  accPaths (pyStartsWith remote_dir "/") ""
    ((pySplitOn (stripSlashes remote_dir) '/').filter (· ≠ ""))

/-- Helper for C7: with no permission-denied creation failure along the
walk, the segment loop succeeds and emits exactly the expected events in
prefix order. -/
theorem mkdirsGo_no_eacces (stat : String → Bool) (mkdir : String → Except MkErr Unit)
    (absolute : Bool) (parts : List String) :
    ∀ path, (∀ q ∈ accPaths absolute path parts, stat q = false →
      isEaccesFailure (mkdir q) = false) →
    mkdirsGo stat mkdir absolute path parts =
      .ok (expectedMkEvs stat mkdir (accPaths absolute path parts)) := by
  induction parts with
  | nil => intro path _; rfl
  | cons p rest ih =>
    intro path hq
    simp only [accPaths, expectedMkEvs] at hq ⊢
    by_cases hs : stat (nextPath absolute path p)
    · have := ih (nextPath absolute path p) (fun q hmem hsq => hq q (by simp [hmem]) hsq)
      simp [mkdirsGo, hs, this, expectedMkEvs]
    · have hrec := ih (nextPath absolute path p) (fun q hmem hsq => hq q (by simp [hmem]) hsq)
      have hne := hq (nextPath absolute path p) (by simp) (by simpa using hs)
      cases hm : mkdir (nextPath absolute path p) with
      | ok u =>
        simp [mkdirsGo, hs, hm, hrec, expectedMkEvs]
      | error err =>
        cases err with
        | eacces m => rw [hm] at hne; simp [isEaccesFailure] at hne
        | eexist m => simp [mkdirsGo, hs, hm, hrec, expectedMkEvs]
        | other m => simp [mkdirsGo, hs, hm, hrec, expectedMkEvs]

/-- Helper for C7: the first permission-denied creation failure along the
walk aborts the segment loop with exactly that error. -/
theorem mkdirsGo_eacces_aborts (stat : String → Bool) (mkdir : String → Except MkErr Unit)
    (absolute : Bool) (parts : List String) :
    ∀ path l1 q l2 m, accPaths absolute path parts = l1 ++ q :: l2 →
    (∀ r ∈ l1, stat r = false → isEaccesFailure (mkdir r) = false) →
    stat q = false → mkdir q = .error (.eacces m) →
    mkdirsGo stat mkdir absolute path parts = .error (.eacces m) := by
  induction parts with
  | nil =>
    intro path l1 q l2 m hsplit
    simp [accPaths] at hsplit
  | cons p rest ih =>
    intro path l1 q l2 m hsplit hok hsq hmq
    simp only [accPaths] at hsplit
    cases l1 with
    | nil =>
      simp only [List.nil_append, List.cons.injEq] at hsplit
      obtain ⟨hq1, _⟩ := hsplit
      subst hq1
      simp [mkdirsGo, hsq, hmq]
    | cons r l1t =>
      simp only [List.cons_append, List.cons.injEq] at hsplit
      obtain ⟨hr, htail⟩ := hsplit
      subst hr
      have hrec := ih (nextPath absolute path p) l1t q l2 m htail
        (fun x hx hsx => hok x (by simp [hx]) hsx) hsq hmq
      by_cases hs : stat (nextPath absolute path p)
      · simp [mkdirsGo, hs, hrec]
      · have hne := hok (nextPath absolute path p) (by simp) (by simpa using hs)
        cases hm : mkdir (nextPath absolute path p) with
        | ok u => simp [mkdirsGo, hs, hm, hrec]
        | error err =>
          cases err with
          | eacces mm => rw [hm] at hne; simp [isEaccesFailure] at hne
          | eexist mm => simp [mkdirsGo, hs, hm, hrec]
          | other mm => simp [mkdirsGo, hs, hm, hrec]

/-- C7: for a non-degenerate remote path, directory preparation walks the
accumulated prefixes left to right, creating each prefix whose stat fails:
if no creation failure is permission-denied the walk completes, ignoring
"already exists" and warning on other creation failures without aborting;
the first permission-denied creation failure is propagated immediately as
the result. -/
theorem makedirs_spec (stat : String → Bool) (mkdir : String → Except MkErr Unit)
    (remote_dir : String)
    (hnd : ¬(remote_dir = "" ∨ remote_dir = "/" ∨ remote_dir = "." ∨ remote_dir = "~")) :
    ((∀ q ∈ makedirsPrefixes remote_dir, stat q = false →
        isEaccesFailure (mkdir q) = false) →
      makedirs stat mkdir remote_dir =
        .ok (expectedMkEvs stat mkdir (makedirsPrefixes remote_dir))) ∧
    (∀ l1 q l2 m, makedirsPrefixes remote_dir = l1 ++ q :: l2 →
      (∀ r ∈ l1, stat r = false → isEaccesFailure (mkdir r) = false) →
      stat q = false → mkdir q = .error (.eacces m) →
      makedirs stat mkdir remote_dir = .error (.eacces m)) := by
  constructor
  · intro h
    rw [makedirs, if_neg hnd]
    exact mkdirsGo_no_eacces _ _ _ _ "" h
  · intro l1 q l2 m hsplit hok hsq hmq
    rw [makedirs, if_neg hnd]
    exact mkdirsGo_eacces_aborts _ _ _ _ "" l1 q l2 m hsplit hok hsq hmq

/-- C7 witness: creating `/a/b` from scratch succeeds segment by segment;
and with a permission-denied failure on `/a` (its first prefix),
preparation aborts immediately with that error even though the deeper
segment would have been creatable. -/
theorem makedirs_spec_witness :
    makedirs (fun _ => false) (fun _ => .ok ()) "/a/b" =
      .ok [MkEv.mkdirOk "/a", MkEv.mkdirOk "/a/b"] ∧
    makedirs (fun _ => false)
      (fun p => if p = "/a" then .error (.eacces "denied") else .ok ()) "/a/b" =
      .error (.eacces "denied") := by
  constructor
  · have h := (makedirs_spec (fun _ => false) (fun _ => .ok ()) "/a/b" (by decide)).1
      (by intro q hq hs; rfl)
    rw [h]
    rfl
  · exact (makedirs_spec (fun _ => false)
      (fun p => if p = "/a" then .error (.eacces "denied") else .ok ()) "/a/b"
      (by decide)).2 [] "/a" ["/a/b"] "denied" rfl (by simp) rfl rfl

/-- Helper for C8: when the retried page requests form a token chain of
pages, the pagination loop accumulates exactly the concatenation of all
pages' files onto the accumulator. -/
theorem listLoop_paginates (fetch : Option String → Nat → Except PyExc ListPage)
    (pgs : List ListPage) :
    ∀ tok acc fuel, Paginates (fun t => (_retry (fetch t) 3 1).1) tok pgs →
    pgs.length ≤ fuel →
    listLoop fetch fuel tok acc = .ok (acc ++ (pgs.map ListPage.files).flatten) := by
  induction pgs with
  | nil =>
    intro tok acc fuel hp
    exact absurd hp (by simp [Paginates])
  | cons p ps ih =>
    intro tok acc fuel hp hf
    cases fuel with
    | zero => simp at hf
    | succ fl =>
      cases ps with
      | nil =>
        simp only [Paginates] at hp
        obtain ⟨hfetch, htok⟩ := hp
        simp [listLoop, hfetch, htok]
      | cons q qs =>
        simp only [Paginates] at hp
        obtain ⟨hfetch, htok, hrest⟩ := hp
        have hrec := ih p.nextPageToken (acc ++ p.files) fl hrest (by simp at hf ⊢; omega)
        simp [listLoop, hfetch, htok, hrec]

/-- C8: a listing spanning several pages follows the continuation token
until it is falsy and returns the accumulation of all pages' files, in
page order; when the service hands out no duplicate identifiers across the
pages (as the folder query does), the result has no duplicate identifiers
— regardless of how the files are split into pages. Each page request is
the `_retry`-wrapped call (`retries = 3`, `base_sleep = 1`), which the
`Paginates` hypothesis constrains. -/
theorem list_files_pagination (fetch : Option String → Nat → Except PyExc ListPage)
    (pgs : List ListPage) (fuel : Nat)
    (hp : Paginates (fun t => (_retry (fetch t) 3 1).1) none pgs)
    (hfuel : pgs.length ≤ fuel)
    (hnodup : (((pgs.map ListPage.files).flatten).map FileRec.id).Nodup) :
    list_files_in_folder fetch fuel = .ok ((pgs.map ListPage.files).flatten) ∧
    ∀ l, list_files_in_folder fetch fuel = .ok l → (l.map FileRec.id).Nodup := by
  have h := listLoop_paginates fetch pgs none [] fuel hp hfuel
  have h1 : list_files_in_folder fetch fuel = .ok ((pgs.map ListPage.files).flatten) := by
    simpa [list_files_in_folder] using h
  refine ⟨h1, ?_⟩
  intro l hl
  rw [h1] at hl
  injection hl with hl2
  rw [hl2] at hnodup
  exact hnodup

/-- C8 witness: a two-page listing whose first page request fails on its
first attempt (and is retried); the result is both pages' files in order
with distinct identifiers. -/
theorem list_files_pagination_witness :
    list_files_in_folder
      (fun tok n => match tok with
        | none => if n = 1 then .error (.other "timeout")
            else .ok ⟨[⟨"id1", "a.csv"⟩], some "t2"⟩
        | some _ => .ok ⟨[⟨"id2", "b.csv"⟩], none⟩) 2 =
      .ok [⟨"id1", "a.csv"⟩, ⟨"id2", "b.csv"⟩] ∧
    ([(⟨"id1", "a.csv"⟩ : FileRec), ⟨"id2", "b.csv"⟩].map FileRec.id).Nodup := by
  have h := list_files_pagination
    (fun tok n => match tok with
      | none => if n = 1 then .error (.other "timeout")
          else .ok ⟨[⟨"id1", "a.csv"⟩], some "t2"⟩
      | some _ => .ok ⟨[⟨"id2", "b.csv"⟩], none⟩)
    [⟨[⟨"id1", "a.csv"⟩], some "t2"⟩, ⟨[⟨"id2", "b.csv"⟩], none⟩] 2
    ⟨rfl, rfl, rfl, rfl⟩ (by decide) (by decide)
  exact ⟨h.1, h.2 _ h.1⟩

/-- The end-to-end scenario of the spec: allowed extensions `["csv"]`,
1 MB size limit. -/
def c1Settings : WSettings := ⟨["csv"], 1⟩

/-- The scenario's world, parameterised by the local size oracle: the
folder lists `a.csv` and `big.bin`; every download, the connect, the
upload, the archive move and the local removal succeed. -/
def c1WorldWith (g : String → Except String Nat) : WatchWorld :=
  ⟨[⟨"idA", "a.csv"⟩, ⟨"idB", "big.bin"⟩],
    fun _ => .ok (), g, .ok (), fun _ => .ok (),
    fun _ => true, fun _ => true, fun _ => .ok ()⟩

/-- The scenario's world with the spec's sizes: `a.csv` is 500 KB
(512000 bytes), `big.bin` 2000 KB (2048000 bytes). -/
def c1World : WatchWorld :=
  c1WorldWith (fun p => if p = "tmp/a.csv" then .ok 512000 else .ok 2048000)

/-- C1 counterexample: in the scenario, a download attempt *is* made for
`big.bin` and the download phase *does* report an entry for it — the code
downloads every listed file first and filters by extension only
afterwards, so `big.bin` is not "excluded before any download attempt"
and the cycle's download results do contain an entry for it. -/
theorem run_once_scenario_counterexample :
    Ev.downloadTry "idB" "big.bin" ∈
      (download_all_from_folder c1World.listing "tmp" c1World.download false none).2 ∧
    (⟨"idB", "big.bin", "tmp/big.bin", "OK", ""⟩ : FileResult) ∈
      (download_all_from_folder c1World.listing "tmp" c1World.download false none).1 := by
  constructor <;> decide

/-- C1 (amended): in the scenario both listed files are downloaded (and
both get a download-phase entry); `big.bin` is then excluded by the
extension filter — before and independently of any size check, for every
size oracle — and takes no part in the upload stage; exactly one file is
eligible, namely `a.csv`, which is uploaded, archived and its local temp
copy removed, with the whole cycle trace as stated. -/
theorem run_once_scenario :
    (download_all_from_folder c1World.listing "tmp" c1World.download false none).1 =
      [⟨"idA", "a.csv", "tmp/a.csv", "OK", ""⟩,
        ⟨"idB", "big.bin", "tmp/big.bin", "OK", ""⟩] ∧
    (filterFiles c1Settings c1World
      (download_all_from_folder c1World.listing "tmp" c1World.download false none).1).1 =
      [⟨"idA", "a.csv", "tmp/a.csv", "OK", ""⟩] ∧
    run_once c1Settings c1World "folder1" "tmp" =
      .ok [Ev.downloadTry "idA" "a.csv", Ev.downloadOk "idA" "a.csv",
        Ev.downloadTry "idB" "big.bin", Ev.downloadOk "idB" "big.bin",
        Ev.infoSkipExt "big.bin", Ev.sftpConnect, Ev.uploadOk "tmp/a.csv",
        Ev.archiveOk "idA", Ev.removeOk "tmp/a.csv", Ev.sftpClose] ∧
    ∀ g : String → Except String Nat,
      filterStep c1Settings (c1WorldWith g)
        ⟨"idB", "big.bin", "tmp/big.bin", "OK", ""⟩ =
        (none, [.infoSkipExt "big.bin"]) := by
  refine ⟨by rfl, by rfl, by rfl, ?_⟩
  intro g
  rfl

/-- The events of a cycle result (`[]` for a cycle that re-raised). -/
def okEvents : Except String (List Ev) → List Ev
  | .ok evs => evs
  | .error _ => []

/-- Whether a cycle returned to its caller instead of re-raising. -/
def isOkResult : Except String (List Ev) → Bool
  | .ok _ => true
  | .error _ => false

/-- Helper: the download phase never touches the sink connection. -/
theorem connect_not_in_download (fs : List FileRec) (dest : String)
    (dl : String → Except String Unit) (del : Bool) (pre : Option String) :
    Ev.sftpConnect ∉ (download_all_from_folder fs dest dl del pre).2 := by
  induction fs with
  | nil => simp [download_all_from_folder]
  | cons f rest ih =>
    simp only [download_all_from_folder]
    repeat' split
    all_goals simp [ih]

/-- Helper: one eligibility-filter step never touches the sink
connection. -/
theorem connect_not_in_filterStep (s : WSettings) (w : WatchWorld) (f : FileResult) :
    Ev.sftpConnect ∉ (filterStep s w f).2 := by
  simp only [filterStep]
  repeat' split
  all_goals simp

/-- Helper: the eligibility filter never touches the sink connection. -/
theorem connect_not_in_filterFiles (s : WSettings) (w : WatchWorld)
    (rs : List FileResult) :
    Ev.sftpConnect ∉ (filterFiles s w rs).2 := by
  induction rs with
  | nil => simp [filterFiles]
  | cons f rest ih =>
    unfold filterFiles
    simp only [List.mem_append, not_or]
    exact ⟨connect_not_in_filterStep s w f, ih⟩

/-- Helper: processing one eligible file opens no connection of its own. -/
theorem connect_not_in_processFile (w : WatchWorld) (f : FileResult) :
    Ev.sftpConnect ∉ processFile w f := by
  simp only [processFile]
  repeat' split
  all_goals simp

/-- Helper: the whole per-file loop opens no connection of its own. -/
theorem connect_not_in_processFlatten (w : WatchWorld) (fs : List FileResult) :
    Ev.sftpConnect ∉ (fs.map (processFile w)).flatten := by
  simp only [List.mem_flatten, not_exists]
  rintro l ⟨hl, hmem⟩
  obtain ⟨f, hf, rfl⟩ := List.mem_map.mp hl
  exact connect_not_in_processFile w f hmem

/-- C2: in a cycle whose eligible files are `f1 :: rest`, an exception
raised during `f1`'s upload is caught at the file boundary: every file in
`rest` is still uploaded and archived, the cycle returns to its caller
without raising, exactly one sink connection is opened, and the trace ends
with the connection's close. -/
theorem cycle_isolation (s : WSettings) (w : WatchWorld) (fid temp : String)
    (f1 : FileResult) (rest : List FileResult) (e : String)
    (hfid : pyStrip fid ≠ "")
    (hflt : (filterFiles s w
      (download_all_from_folder w.listing temp w.download false none).1).1 = f1 :: rest)
    (hconn : w.connect = .ok ())
    (hup1 : w.upload f1.path = .error e)
    (hupr : ∀ f ∈ rest, w.upload f.path = .ok ())
    (harch : ∀ f ∈ rest, w.archiveMove f.id = true) :
    isOkResult (run_once s w fid temp) = true ∧
    Ev.uploadErr f1.name e ∈ okEvents (run_once s w fid temp) ∧
    (∀ f ∈ rest, Ev.uploadOk f.path ∈ okEvents (run_once s w fid temp) ∧
      Ev.archiveOk f.id ∈ okEvents (run_once s w fid temp)) ∧
    (okEvents (run_once s w fid temp)).count Ev.sftpConnect = 1 ∧
    (okEvents (run_once s w fid temp)).getLast? = some Ev.sftpClose := by
  have hrun : run_once s w fid temp = .ok (
      (download_all_from_folder w.listing temp w.download false none).2 ++
      (filterFiles s w
        (download_all_from_folder w.listing temp w.download false none).1).2 ++
      (Ev.sftpConnect :: ((f1 :: rest).map (processFile w)).flatten ++ [Ev.sftpClose])) := by
    simp only [run_once]
    rw [if_neg hfid, hflt]
    simp [uploadPhase, hconn]
  rw [hrun]
  simp only [okEvents]
  refine ⟨rfl, ?_, ?_, ?_, ?_⟩
  · have h1 : Ev.uploadErr f1.name e ∈ ((f1 :: rest).map (processFile w)).flatten := by
      simp only [List.map_cons, List.flatten_cons, List.mem_append]
      left
      simp [processFile, hup1]
    exact List.mem_append_right _ (List.mem_cons_of_mem _ (List.mem_append_left _ h1))
  · intro f hf
    have hfm : f ∈ f1 :: rest := List.mem_cons_of_mem f1 hf
    have h1 : Ev.uploadOk f.path ∈ processFile w f := by
      simp [processFile, hupr f hf]
    have h2 : Ev.archiveOk f.id ∈ processFile w f := by
      simp [processFile, hupr f hf, harch f hf]
    have g1 : Ev.uploadOk f.path ∈ ((f1 :: rest).map (processFile w)).flatten :=
      List.mem_flatten.mpr ⟨processFile w f, List.mem_map_of_mem _ hfm, h1⟩
    have g2 : Ev.archiveOk f.id ∈ ((f1 :: rest).map (processFile w)).flatten :=
      List.mem_flatten.mpr ⟨processFile w f, List.mem_map_of_mem _ hfm, h2⟩
    exact ⟨List.mem_append_right _ (List.mem_cons_of_mem _ (List.mem_append_left _ g1)),
      List.mem_append_right _ (List.mem_cons_of_mem _ (List.mem_append_left _ g2))⟩
  · have c1 := connect_not_in_download w.listing temp w.download false none
    have c2 := connect_not_in_filterFiles s w
      (download_all_from_folder w.listing temp w.download false none).1
    have c3 := connect_not_in_processFlatten w (f1 :: rest)
    simp [List.count_append, List.count_cons,
      List.count_eq_zero.mpr c1, List.count_eq_zero.mpr c2, List.count_eq_zero.mpr c3]
    exact ⟨List.count_eq_zero.mpr (connect_not_in_processFile w f1),
      List.count_eq_zero.mpr (connect_not_in_processFlatten w rest)⟩
  · have hre : (download_all_from_folder w.listing temp w.download false none).2 ++
        (filterFiles s w
          (download_all_from_folder w.listing temp w.download false none).1).2 ++
        (Ev.sftpConnect :: ((f1 :: rest).map (processFile w)).flatten ++ [Ev.sftpClose]) =
        ((download_all_from_folder w.listing temp w.download false none).2 ++
          (filterFiles s w
            (download_all_from_folder w.listing temp w.download false none).1).2 ++
          (Ev.sftpConnect :: ((f1 :: rest).map (processFile w)).flatten)) ++
          [Ev.sftpClose] := by
      simp
    rw [hre, List.getLast?_concat]

/-- The two-file world of the C2 witness: no filters apply, both listed
files download, the first file's upload raises, the second succeeds. -/
def c2World : WatchWorld :=
  ⟨[⟨"id1", "a.csv"⟩, ⟨"id2", "b.csv"⟩],
    fun _ => .ok (),
    fun _ => .ok 1000,
    .ok (),
    fun p => if p = "tmp/a.csv" then .error "upload boom" else .ok (),
    fun _ => true, fun _ => true, fun _ => .ok ()⟩

/-- C2 witness: in the concrete two-file cycle whose first upload raises,
the second file is still uploaded and archived, the cycle returns, one
connection is opened and the trace ends with its close. -/
theorem cycle_isolation_witness :
    isOkResult (run_once ⟨[], 0⟩ c2World "folder1" "tmp") = true ∧
    Ev.uploadErr "a.csv" "upload boom" ∈ okEvents (run_once ⟨[], 0⟩ c2World "folder1" "tmp") ∧
    Ev.uploadOk "tmp/b.csv" ∈ okEvents (run_once ⟨[], 0⟩ c2World "folder1" "tmp") ∧
    Ev.archiveOk "id2" ∈ okEvents (run_once ⟨[], 0⟩ c2World "folder1" "tmp") ∧
    (okEvents (run_once ⟨[], 0⟩ c2World "folder1" "tmp")).count Ev.sftpConnect = 1 ∧
    (okEvents (run_once ⟨[], 0⟩ c2World "folder1" "tmp")).getLast? = some Ev.sftpClose := by
  have h := cycle_isolation ⟨[], 0⟩ c2World "folder1" "tmp"
    ⟨"id1", "a.csv", "tmp/a.csv", "OK", ""⟩
    [⟨"id2", "b.csv", "tmp/b.csv", "OK", ""⟩] "upload boom"
    (by decide) rfl rfl rfl
    (by intro f hf; simp only [List.mem_singleton] at hf; subst hf; rfl)
    (by intro f hf; simp only [List.mem_singleton] at hf; subst hf; rfl)
  have h2 := h.2.2.1 ⟨"id2", "b.csv", "tmp/b.csv", "OK", ""⟩ (by simp)
  exact ⟨h.1, h.2.1, h2.1, h2.2, h.2.2.2.1, h.2.2.2.2⟩

/-- Whether a loop event is a stop-flag poll. -/
def isPollEv : LoopEv → Bool
  | .poll _ => true
  | _ => false

/-- Whether a loop event is a finished cycle. -/
def isCycleEv : LoopEv → Bool
  | .cycleOk _ => true
  | .cycleErr _ _ => true
  | _ => false

/-- The adjacency invariant of the polling loop's trace: a sleep second or
a cycle is entered only right after a poll that observed `false`; a sleep
second is immediately followed by a poll (so consecutive polls are at most
one second apart); once a poll observes `true`, every later event is
another `true` poll (so neither sleeping nor cycling continues after
cancellation is observed). -/
def loopStep (a b : LoopEv) : Prop :=
  ((b = .sleepOneSec ∨ isCycleEv b = true) → a = .poll false) ∧
  (a = .sleepOneSec → isPollEv b = true) ∧
  (a = .poll true → b = .poll true)

instance (a b : LoopEv) : Decidable (loopStep a b) := by
  unfold loopStep
  infer_instance

/-- A poll that observed `false` relates to anything. -/
theorem loopStep_poll_false (b : LoopEv) : loopStep (.poll false) b :=
  ⟨fun _ => rfl, fun h => by simp at h, fun h => by simp at h⟩

/-- A sleep second relates to any following poll. -/
theorem loopStep_sleep_poll (y : LoopEv) (hy : isPollEv y = true) :
    loopStep .sleepOneSec y := by
  cases y <;> simp [isPollEv] at hy ⊢ <;> simp [loopStep, isCycleEv, isPollEv]

/-- A finished cycle relates to any following poll. -/
theorem loopStep_cycle_poll (a y : LoopEv) (ha : isCycleEv a = true)
    (hy : isPollEv y = true) : loopStep a y := by
  cases a <;> simp [isCycleEv] at ha ⊢ <;>
    cases y <;> simp [isPollEv] at hy <;> simp [loopStep, isCycleEv, isPollEv]

/-- An observed stop relates to another observed stop. -/
theorem loopStep_poll_true_poll_true : loopStep (.poll true) (.poll true) :=
  ⟨fun h => by simp [isCycleEv] at h, fun h => by simp at h, fun _ => rfl⟩

/-- A sticky flag stays set. -/
theorem flag_stays (flag : Nat → Bool) (m : Nat)
    (hmono : ∀ k, flag k = true → flag (k + 1) = true) (hm : flag m = true) :
    ∀ x, m ≤ x → flag x = true := by
  intro x hx
  induction x, hx using Nat.le_induction with
  | base => exact hm
  | succ n hn ih => exact hmono n ih

/-- The sleep loop never decreases the poll counter. -/
theorem sleepPhase_k_le (flag : Nat → Bool) :
    ∀ r k, k ≤ (sleepPhase flag k r).2 := by
  intro r
  induction r with
  | zero => intro k; simp [sleepPhase]
  | succ r ih =>
    intro k
    by_cases hk : flag k
    · simp [sleepPhase, hk]
    · simp only [sleepPhase, hk, Bool.false_eq_true, if_false]
      exact le_trans (Nat.le_succ k) (ih (k + 1))

/-- The sleep loop's trace starts with a poll, when nonempty. -/
theorem sleepPhase_head (flag : Nat → Bool) :
    ∀ r k x, (sleepPhase flag k r).1.head? = some x → isPollEv x = true := by
  intro r
  cases r with
  | zero => intro k x h; simp [sleepPhase] at h
  | succ r =>
    intro k x h
    by_cases hk : flag k
    · simp [sleepPhase, hk] at h
      subst h; rfl
    · simp [sleepPhase, hk] at h
      subst h; rfl

/-- The sleep loop's trace satisfies the adjacency invariant. -/
theorem sleepPhase_chain (flag : Nat → Bool) :
    ∀ r k, List.Chain' loopStep (sleepPhase flag k r).1 := by
  intro r
  induction r with
  | zero => intro k; simp [sleepPhase]
  | succ r ih =>
    intro k
    by_cases hk : flag k
    · simp [sleepPhase, hk]
    · simp only [sleepPhase, hk, Bool.false_eq_true, if_false]
      rw [List.chain'_cons]
      refine ⟨loopStep_poll_false _, ?_⟩
      rw [List.chain'_cons']
      refine ⟨?_, ih (k + 1)⟩
      intro y hy
      exact loopStep_sleep_poll y (sleepPhase_head flag r (k + 1) y hy)

/-- The sleep loop's trace ends in a sleep second or an observed stop,
when nonempty. -/
theorem sleepPhase_last_shape (flag : Nat → Bool) :
    ∀ r k, (sleepPhase flag k r).1.getLast? = none ∨
      (sleepPhase flag k r).1.getLast? = some .sleepOneSec ∨
      (sleepPhase flag k r).1.getLast? = some (.poll true) := by
  intro r
  induction r with
  | zero => intro k; left; rfl
  | succ r ih =>
    intro k
    by_cases hk : flag k
    · right; right; simp [sleepPhase, hk]
    · simp only [sleepPhase, hk, Bool.false_eq_true, if_false]
      have h1 : (LoopEv.poll false :: LoopEv.sleepOneSec ::
          (sleepPhase flag (k + 1) r).1).getLast? =
          (LoopEv.sleepOneSec :: (sleepPhase flag (k + 1) r).1).getLast? := rfl
      rw [h1]
      cases hrest : (sleepPhase flag (k + 1) r).1 with
      | nil => right; left; rfl
      | cons x xs =>
        have h2 : (LoopEv.sleepOneSec :: x :: xs).getLast? = (x :: xs).getLast? := rfl
        rw [h2, ← hrest]
        exact (ih (k + 1)).imp id id

/-- For a sticky flag, a sleep loop that broke on an observed stop leaves
the flag set at its final poll counter. -/
theorem sleepPhase_last_poll_true (flag : Nat → Bool)
    (hmono : ∀ k, flag k = true → flag (k + 1) = true) :
    ∀ r k, (sleepPhase flag k r).1.getLast? = some (.poll true) →
      flag (sleepPhase flag k r).2 = true := by
  intro r
  induction r with
  | zero => intro k h; simp [sleepPhase] at h
  | succ r ih =>
    intro k h
    by_cases hk : flag k
    · simp only [sleepPhase, hk, if_true]
      exact hmono k hk
    · simp only [sleepPhase, hk, Bool.false_eq_true, if_false] at h ⊢
      have h1 : (LoopEv.poll false :: LoopEv.sleepOneSec ::
          (sleepPhase flag (k + 1) r).1).getLast? =
          (LoopEv.sleepOneSec :: (sleepPhase flag (k + 1) r).1).getLast? := rfl
      rw [h1] at h
      cases hrest : (sleepPhase flag (k + 1) r).1 with
      | nil =>
        rw [hrest] at h
        simp at h
      | cons x xs =>
        rw [hrest] at h
        have h2 : (LoopEv.sleepOneSec :: x :: xs).getLast? = (x :: xs).getLast? := rfl
        rw [h2, ← hrest] at h
        exact ih (k + 1) h

/-- The loop's trace starts with a poll, when nonempty. -/
theorem start_loop_head (flag : Nat → Bool) (cycle : Nat → Except String Unit)
    (interval : Nat) :
    ∀ fuel k i x, (start_loop flag cycle interval fuel k i).1.head? = some x →
      isPollEv x = true := by
  intro fuel k i x h
  cases fuel with
  | zero => simp [start_loop] at h
  | succ f =>
    by_cases hk : flag k
    · simp [start_loop, hk] at h
      subst h; rfl
    · simp [start_loop, hk] at h
      subst h; rfl

/-- For a sticky flag, the whole loop trace satisfies the adjacency
invariant. -/
theorem start_loop_chain (flag : Nat → Bool) (cycle : Nat → Except String Unit)
    (interval : Nat) (hmono : ∀ k, flag k = true → flag (k + 1) = true) :
    ∀ fuel k i, List.Chain' loopStep (start_loop flag cycle interval fuel k i).1 := by
  intro fuel
  induction fuel with
  | zero => intro k i; simp [start_loop]
  | succ f ih =>
    intro k i
    by_cases hk : flag k
    · simp [start_loop, hk]
    · simp only [start_loop, hk, Bool.false_eq_true, if_false, List.cons_append]
      rw [List.chain'_cons']
      constructor
      · intro y hy
        simp only [List.head?_cons, Option.mem_def, Option.some.injEq] at hy
        subst hy
        exact loopStep_poll_false _
      rw [List.chain'_cons']
      constructor
      · intro y hy
        have hcy : isCycleEv (match cycle i with
            | .ok _ => LoopEv.cycleOk i
            | .error e => LoopEv.cycleErr i e) = true := by
          cases cycle i <;> rfl
        rcases hhead : (sleepPhase flag (k + 1) interval).1 with _ | ⟨x, xs⟩
        · rw [hhead] at hy
          simp only [List.nil_append] at hy
          exact loopStep_cycle_poll _ y hcy
            (start_loop_head flag cycle interval f _ (i + 1) y hy)
        · rw [hhead] at hy
          simp only [List.cons_append, List.head?_cons, Option.mem_def,
            Option.some.injEq] at hy
          subst hy
          have := sleepPhase_head flag interval (k + 1) x (by rw [hhead]; rfl)
          exact loopStep_cycle_poll _ x hcy this
      rw [List.chain'_append]
      refine ⟨sleepPhase_chain flag interval (k + 1), ih _ (i + 1), ?_⟩
      intro x hx y hy
      rcases sleepPhase_last_shape flag interval (k + 1) with hsh | hsh | hsh
      · rw [hsh] at hx
        simp at hx
      · rw [hsh] at hx
        simp only [Option.mem_def, Option.some.injEq] at hx
        subst hx
        exact loopStep_sleep_poll y (start_loop_head flag cycle interval f _ (i + 1) y hy)
      · rw [hsh] at hx
        simp only [Option.mem_def, Option.some.injEq] at hx
        subst hx
        have hflag := sleepPhase_last_poll_true flag hmono interval (k + 1) hsh
        cases f with
        | zero => simp [start_loop] at hy
        | succ f2 =>
          simp [start_loop, hflag] at hy
          subst hy
          exact loopStep_poll_true_poll_true

/-- The control-flow skeleton of a trace: keep every event, erasing only
whether a cycle finished normally or with a caught exception. -/
def skelEv : LoopEv → LoopEv
  | .cycleErr i _ => .cycleOk i
  | e => e

/-- The trace with cycle outcomes erased. -/
def loopSkel (t : List LoopEv) : List LoopEv :=
  t.map skelEv

/-- The loop's polls, sleeps, stop behaviour and number of cycles do not
depend on cycle outcomes: any exception escaping a cycle is caught, and
the loop continues exactly as it would have on success. -/
theorem start_loop_skel (flag : Nat → Bool) (cycle cycle2 : Nat → Except String Unit)
    (interval : Nat) :
    ∀ fuel k i,
      loopSkel (start_loop flag cycle interval fuel k i).1 =
        loopSkel (start_loop flag cycle2 interval fuel k i).1 ∧
      (start_loop flag cycle interval fuel k i).2 =
        (start_loop flag cycle2 interval fuel k i).2 := by
  intro fuel
  induction fuel with
  | zero => intro k i; exact ⟨rfl, rfl⟩
  | succ f ih =>
    intro k i
    by_cases hk : flag k
    · simp [start_loop, hk]
    · simp only [start_loop, hk, Bool.false_eq_true, if_false, List.cons_append]
      obtain ⟨ihs, ihb⟩ := ih (sleepPhase flag (k + 1) interval).2 (i + 1)
      refine ⟨?_, ihb⟩
      simp only [loopSkel, List.map_cons, List.map_append] at ihs ⊢
      have hcev : skelEv (match cycle i with
          | .ok _ => LoopEv.cycleOk i
          | .error e => LoopEv.cycleErr i e) =
          skelEv (match cycle2 i with
          | .ok _ => LoopEv.cycleOk i
          | .error e => LoopEv.cycleErr i e) := by
        cases cycle i <;> cases cycle2 i <;> rfl
      rw [hcev, ihs]

/-- Once the flag is set (from poll index `m` on), the loop stops within
fuel `m + 1` outer iterations when started below `m`. -/
theorem start_loop_stops (flag : Nat → Bool) (cycle : Nat → Except String Unit)
    (interval m : Nat) (hge : ∀ x, m ≤ x → flag x = true) :
    ∀ fuel k i, k ≤ m → m + 1 ≤ k + fuel →
      (start_loop flag cycle interval fuel k i).2 = true := by
  intro fuel
  induction fuel with
  | zero => intro k i hk hb; omega
  | succ f ih =>
    intro k i hkm hb
    by_cases hk : flag k
    · simp [start_loop, hk]
    · have hklt : k < m := by
        rcases Nat.lt_or_ge k m with h | h
        · exact h
        · exact absurd (hge k h) hk
      simp only [start_loop, hk, Bool.false_eq_true, if_false]
      have hk2 := sleepPhase_k_le flag interval (k + 1)
      by_cases hkm2 : (sleepPhase flag (k + 1) interval).2 ≤ m
      · exact ih _ (i + 1) hkm2 (by omega)
      · have hflag : flag (sleepPhase flag (k + 1) interval).2 = true :=
          hge _ (by omega)
        cases f with
        | zero => omega
        | succ f2 => simp [start_loop, hflag]

/-- A cycle that fails with an exception is logged in the trace. -/
theorem start_loop_cycle_err_logged (flag : Nat → Bool)
    (cycle : Nat → Except String Unit) (interval : Nat)
    (fuel k i : Nat) (e : String) (hk : flag k = false)
    (hc : cycle i = .error e) :
    LoopEv.cycleErr i e ∈ (start_loop flag cycle interval (fuel + 1) k i).1 := by
  simp [start_loop, hk, hc]

/-- C5: for a sticky cancel flag set from poll `m` on, the loop stops
within `m + 1` outer iterations; every trace satisfies the adjacency
invariant (the flag is checked immediately before each cycle and before
each second of sleep, consecutive polls are at most one second apart, and
nothing but observed stops follows an observed stop — bounding
cancellation latency to about one second); a cycle exception is caught and
logged; and the loop's polls, sleeps, stop and cycle count are identical
for any two cycle-outcome sequences, so exceptions never end the loop. -/
theorem start_loop_spec (flag : Nat → Bool) (cycle cycle2 : Nat → Except String Unit)
    (interval m : Nat)
    (hmono : ∀ k, flag k = true → flag (k + 1) = true)
    (hm : flag m = true) :
    (start_loop flag cycle interval (m + 1) 0 0).2 = true ∧
    (∀ fuel k i, List.Chain' loopStep (start_loop flag cycle interval fuel k i).1) ∧
    (∀ fuel k i e, flag k = false → cycle i = .error e →
      LoopEv.cycleErr i e ∈ (start_loop flag cycle interval (fuel + 1) k i).1) ∧
    (∀ fuel k i,
      loopSkel (start_loop flag cycle interval fuel k i).1 =
        loopSkel (start_loop flag cycle2 interval fuel k i).1 ∧
      (start_loop flag cycle interval fuel k i).2 =
        (start_loop flag cycle2 interval fuel k i).2) := by
  refine ⟨?_, ?_, ?_, ?_⟩
  · exact start_loop_stops flag cycle interval m
      (flag_stays flag m hmono hm) (m + 1) 0 0 (Nat.zero_le m) (by omega)
  · intro fuel k i
    exact start_loop_chain flag cycle interval hmono fuel k i
  · intro fuel k i e hk hc
    exact start_loop_cycle_err_logged flag cycle interval fuel k i e hk hc
  · intro fuel k i
    exact start_loop_skel flag cycle cycle2 interval fuel k i

/-- C5 witness: a flag set from poll 2 on, a first cycle that raises, poll
interval 2 seconds: the loop stops with fuel 3, its trace satisfies the
invariant, the failed cycle is logged, and the skeleton matches the
all-success loop's. -/
theorem start_loop_spec_witness :
    (start_loop (fun k => decide (2 ≤ k))
      (fun i => if i = 0 then .error "cycle boom" else .ok ()) 2 3 0 0).2 = true ∧
    List.Chain' loopStep (start_loop (fun k => decide (2 ≤ k))
      (fun i => if i = 0 then .error "cycle boom" else .ok ()) 2 5 0 0).1 ∧
    LoopEv.cycleErr 0 "cycle boom" ∈ (start_loop (fun k => decide (2 ≤ k))
      (fun i => if i = 0 then .error "cycle boom" else .ok ()) 2 5 0 0).1 ∧
    loopSkel (start_loop (fun k => decide (2 ≤ k))
      (fun i => if i = 0 then .error "cycle boom" else .ok ()) 2 5 0 0).1 =
      loopSkel (start_loop (fun k => decide (2 ≤ k))
        (fun _ => .ok ()) 2 5 0 0).1 := by
  have h := start_loop_spec (fun k => decide (2 ≤ k))
    (fun i => if i = 0 then .error "cycle boom" else .ok ())
    (fun _ => .ok ()) 2 2
    (fun k hk => by simp at hk ⊢; omega) (by decide)
  exact ⟨h.1, h.2.1 5 0 0, h.2.2.1 4 0 0 "cycle boom" (by decide) rfl,
    (h.2.2.2 5 0 0).1⟩
